import Mathlib

/-!  Verification of the geospatial data-input / mesh-generation layer of the
VarGlaS repository (`src/utilities.py`).  The `DataInput` class (raster-field
group bookkeeping, NaN trimming, nearest/spline interpolants, projections onto
finite-element spaces, assimilation of one dataset into another) and the
`MeshGenerator` class (contour selection and `.geo`-file refinement fields) are
shallowly embedded below; coordinates and raster samples are modelled as
rationals, numpy arrays as lists, and the mutable `.geo` file sink as a list of
written lines.  External collaborators (dolfin meshes/function spaces, pyproj
transforms, scipy spline fitting) are modelled only through the data the source
hands them and the data they hand back. -/

/-- A raster field: a list of rows, each row a list of rational samples
(row index = y, column index = x), mirroring the numpy 2-D arrays. -/
abbrev Grid := List (List ℚ)

/-- A raster field whose entries may be NaN (`none` = NaN), used by the
NaN-identification and trimming code paths. -/
abbrev NGrid := List (List (Option ℚ))

/-- Minimum of a list of rationals (`ndarray.min()`); junk value 0 on the
empty list, on which numpy raises instead (callers check emptiness). -/
def listMin : List ℚ → ℚ
  | [] => 0
  | [a] => a
  | a :: b :: t => min a (listMin (b :: t))

/-- Maximum of a list of rationals (`ndarray.max()`); junk value 0 on the
empty list, on which numpy raises instead (callers check emptiness). -/
def listMax : List ℚ → ℚ
  | [] => 0
  | [a] => a
  | a :: b :: t => max a (listMax (b :: t))

/-- `numpy.argmin`: index of the first occurrence of the minimum value.
On the empty list numpy raises; here the junk value is 0. -/
def argmin (l : List ℚ) : Nat := l.findIdx (fun a => a == listMin l)

/-- Rational subtraction `a - b`, written through `mkRat` so that the kernel
can evaluate it on concrete inputs (`qsub_eq_sub` below proves it equal to
`a - b`). -/
def qsub (a b : ℚ) : ℚ := mkRat (a.num * b.den - b.num * a.den) (a.den * b.den)

/-- Absolute value on ℚ, written as a conditional so that the kernel can
evaluate it (`absQ_eq_abs` below proves it equal to `|q|`). -/
def absQ (q : ℚ) : ℚ := if q < 0 then -q else q

/-- `abs(xs - x).argmin()`: index of the per-axis nearest coordinate. -/
def nearestIdx (l : List ℚ) (t : ℚ) : Nat := argmin (l.map (fun a => absQ (qsub a t)))

/-- numpy boolean-mask indexing `l[mask]`: keep the entries whose mask
position is `True` (numpy requires equal lengths; extra entries of either
list are dropped here, and the theorems carry the length hypotheses). -/
def maskFilter {α : Type} : List Bool → List α → List α
  | [], _ => []
  | _, [] => []
  | b :: bs, a :: as => if b then a :: maskFilter bs as else maskFilter bs as

/-- Number of `True` entries of a boolean mask. -/
def countTrue (mask : List Bool) : Nat := mask.count true

/-- Auxiliary counter for `everyNth`: number of elements still to skip
before the next kept element. -/
def everyNthAux {α : Type} (k : Nat) : Nat → List α → List α
  | _, [] => []
  | 0, a :: as => a :: everyNthAux k (k - 1) as
  | n + 1, _ :: as => everyNthAux k n as

/-- Python extended slice `l[::k]` for `k ≥ 1`: elements at indices
`0, k, 2k, ...`. -/
def everyNth {α : Type} (k : Nat) (l : List α) : List α := everyNthAux k 0 l

/-- The NaN-group bookkeeping state of `DataInput`: shared coordinate axes,
extents, sample counts, the running good-column/good-row masks, the dirty
flag `rem_nans`, and the dictionary of loaded fields. -/
structure DataInput where
  x : List ℚ
  y : List ℚ
  x_min : ℚ
  x_max : ℚ
  y_min : ℚ
  y_max : ℚ
  nx : Nat
  ny : Nat
  good_x : List Bool
  good_y : List Bool
  rem_nans : Bool
  data : List (String × NGrid)
deriving DecidableEq

/-- `numpy.isnan` on one (optional) sample. -/
def isNaNv : Option ℚ → Bool
  | none => true
  | some _ => false

/-- `all(isnan(data), axis=0)`: per-column all-NaN mask (AND down the rows).
The empty grid gives the empty mask. -/
def col_all_nan : NGrid → List Bool
  | [] => []
  | [r] => r.map isNaNv
  | r :: rs => List.zipWith (· && ·) (r.map isNaNv) (col_all_nan rs)

/-- `all(isnan(data), axis=1)`: per-row all-NaN mask (AND along each row). -/
def row_all_nan (d : NGrid) : List Bool := d.map (fun r => r.all isNaNv)

/-- `any(a != b)` on equal-length boolean arrays: does any position differ? -/
def anyDiff (a b : List Bool) : Bool := (List.zipWith (fun p q => p != q) a b).any id

/-- `DataInput.identify_nans(data, fn)`: AND the complement of each per-axis
all-NaN mask into the group's running `good_x`/`good_y` masks and raise the
`rem_nans` flag whenever the new mask differs from the old one (the printed
warning that accompanies the flag is not modelled; `fn` only feeds it). -/
def DataInput.identify_nans (s : DataInput) (d : NGrid) (fn : String) : DataInput :=
  let gx := List.zipWith (fun c g => !c && g) (col_all_nan d) s.good_x
  let gy := List.zipWith (fun c g => !c && g) (row_all_nan d) s.good_y
  let _ := fn
  { s with good_x := gx, good_y := gy,
           rem_nans := s.rem_nans || anyDiff gx s.good_x || anyDiff gy s.good_y }

/-- Failure of NaN trimming.  The source has no dedicated exception class:
when a whole axis is masked away, `self.x.min()` (resp. `self.y.min()`) in
`remove_nans` raises numpy's empty-reduction `ValueError`; the spec names this
failure mode `DegenerateDomainError`. -/
inductive TrimError
  | degenerateDomain
deriving DecidableEq

/-- `DataInput.remove_nans()`: slice the coordinate axes and every field of
the group down to the good rows/columns, recompute extents from the surviving
coordinates, and update the sample counts.  Fails (see `TrimError`) when no
column or no row survives. -/
def DataInput.remove_nans (s : DataInput) : Except TrimError DataInput :=
  let x := maskFilter s.good_x s.x
  let y := maskFilter s.good_y s.y
  match x, y with
  | [], _ => Except.error TrimError.degenerateDomain
  | _ :: _, [] => Except.error TrimError.degenerateDomain
  | _ :: _, _ :: _ =>
    Except.ok { s with
      x := x, y := y,
      x_min := listMin x, x_max := listMax x,
      y_min := listMin y, y_max := listMax y,
      nx := x.length, ny := y.length,
      data := s.data.map
        (fun p => (p.1, (maskFilter s.good_y p.2).map (fun row => maskFilter s.good_x row))) }

/-- The `nearestExpression` object built by `DataInput.get_nearest_expression`:
it captures the coordinate axes, the (optionally boolean-converted) data
array, the `chg_proj` flag and, when reprojection was declared, the pyproj
transform pair (modelled as an opaque coordinate function). -/
structure nearestExpression where
  xs : List ℚ
  ys : List ℚ
  data : Grid
  chg_proj : Bool
  trans : ℚ → ℚ → ℚ × ℚ

/-- `nearestExpression.eval`: optionally reproject the query point, then take
the per-axis nearest index on each axis independently and return that cell. -/
def nearestExpression.eval (e : nearestExpression) (x0 x1 : ℚ) : ℚ :=
  let p := if e.chg_proj then e.trans x0 x1 else (x0, x1)
  (e.data.getD (nearestIdx e.ys p.2) []).getD (nearestIdx e.xs p.1) 0

/-- The projection-facing view of a `DataInput` object: coordinate axes, the
field dictionary (by value), the reprojection declaration, and whether the
discontinuous function space `func_space_dg` was created (`req_dg`). -/
structure DataInputProj where
  x : List ℚ
  y : List ℚ
  data : List (String × Grid)
  chg_proj : Bool
  trans : ℚ → ℚ → ℚ × ℚ
  has_dg : Bool

/-- `self.data[fn]` (junk value `[]` stands for Python's `KeyError`). -/
def lookupField (ds : List (String × Grid)) (fn : String) : Grid :=
  (ds.lookup fn).getD []

/-- `d[d > 0] = 1`: threshold the array to boolean (values above 0 become 1). -/
def boolClamp (d : Grid) : Grid :=
  d.map (fun row => row.map (fun v => if 0 < v then 1 else v))

/-- The value of the data array used by an interpolant builder called with
`bool_data`. -/
def boolConv (bool_data : Bool) (d : Grid) : Grid :=
  if bool_data then boolClamp d else d

/-- `DataInput.get_nearest_expression(fn, bool_data)` (value-level view): the
returned expression object. -/
def DataInputProj.get_nearest_expression (s : DataInputProj) (fn : String)
    (bool_data : Bool) : nearestExpression :=
  { xs := s.x, ys := s.y, data := boolConv bool_data (lookupField s.data fn),
    chg_proj := s.chg_proj, trans := s.trans }

/-- `ndarray.T` on a list-of-rows grid. -/
def transposeGrid : Grid → Grid
  | [] => []
  | r :: rs => List.zipWithAll
      (fun v c => (match v with | some w => [w] | none => []) ++ c.getD [])
      r (transposeGrid rs)

/-- Modelled from the spec: `scipy.interpolate.RectBivariateSpline` is an
external collaborator whose constructor fits spline coefficients from
`x`, `y` and the (transposed) sample array at construction time; evaluation
afterwards depends only on the fitted object (spec section 4.3: built once per
call over the field values; section 8: evaluation at a grid sample returns that
sample).  The fit is modelled by capturing the construction-time inputs, and
the polynomial evaluation is abstracted by grid-sample lookup, which agrees
with the spec's sample-interpolation property at the sample points. -/
structure RectBivariateSplineFit where
  tx : List ℚ
  ty : List ℚ
  zT : Grid
  kx : Nat
  ky : Nat

/-- Evaluation of the fitted spline object (see `RectBivariateSplineFit`):
a function of the fitted data only.  `zT` is the transposed array, so the
first index follows `x` and the second follows `y`. -/
def RectBivariateSplineFit.evalFit (f : RectBivariateSplineFit) (x0 x1 : ℚ) : ℚ :=
  (f.zT.getD (nearestIdx f.tx x0) []).getD (nearestIdx f.ty x1) 0

/-- The `newExpression` object built by `DataInput.get_spline_expression`: it
closes over the fitted spline and the reprojection data. -/
structure splineExpression where
  spline : RectBivariateSplineFit
  chg_proj : Bool
  trans : ℚ → ℚ → ℚ × ℚ

/-- `newExpression.eval`: optionally reproject the query point, then sample
the fitted spline. -/
def splineExpression.eval (e : splineExpression) (x0 x1 : ℚ) : ℚ :=
  let p := if e.chg_proj then e.trans x0 x1 else (x0, x1)
  e.spline.evalFit p.1 p.2

/-- `DataInput.get_spline_expression(fn, kx, ky, bool_data)` (value-level
view): fit the spline from the current axes and (optionally
boolean-converted, transposed) data, and close over it. -/
def DataInputProj.get_spline_expression (s : DataInputProj) (fn : String)
    (kx ky : Nat) (bool_data : Bool) : splineExpression :=
  { spline := { tx := s.x, ty := s.y,
                zT := transposeGrid (boolConv bool_data (lookupField s.data fn)),
                kx := kx, ky := ky },
    chg_proj := s.chg_proj, trans := s.trans }

/-- A dolfin function space of the adapter: `func_space` (CG 1) or
`func_space_dg` (DG 1). -/
inductive FESpace
  | cg
  | dg
deriving DecidableEq

/-- The interpolant handed to the external `project` call. -/
inductive InterpExpr
  | nearestE (e : nearestExpression)
  | splineE (e : splineExpression)

/-- The mesh field returned by `get_projection`: the external least-squares
projection of the given interpolant onto the given function space (the
projection itself is the external FEM library's job; what the source decides
is which interpolant and which space it passes). -/
inductive FEField
  | proj (i : InterpExpr) (sp : FESpace)

/-- Python runtime errors surfaced by the modelled methods. -/
inductive PyErr
  | typeError
  | attributeError
deriving DecidableEq

/-- `DataInput.get_projection(fn, dg, near, bool_data, kx, ky)`: with `dg`
the nearest expression is projected onto the DG space (an `AttributeError`
is raised if `func_space_dg` was never created); otherwise `near` selects the
nearest or the spline expression on the CG space. -/
def DataInputProj.get_projection (s : DataInputProj) (fn : String)
    (dg near bool_data : Bool) (kx ky : Nat) : Except PyErr FEField :=
  if dg then
    if s.has_dg then
      Except.ok (FEField.proj (InterpExpr.nearestE (s.get_nearest_expression fn bool_data)) FESpace.dg)
    else
      Except.error PyErr.attributeError
  else if near then
    Except.ok (FEField.proj (InterpExpr.nearestE (s.get_nearest_expression fn bool_data)) FESpace.cg)
  else
    Except.ok (FEField.proj (InterpExpr.splineE (s.get_spline_expression fn kx ky bool_data)) FESpace.cg)

/-- The store of live numpy arrays: Python objects addressed by position.
`DataInput.data[fn]` holds a reference into this store, and the
`nearestExpression` built from a field stores the same reference, which is
how in-place edits reach interpolants that were already built. -/
abbrev Heap := List Grid

/-- Dereference an array object (junk value `[]` for a dangling address). -/
def heapGet (h : Heap) (a : Nat) : Grid := h.getD a []

/-- The reference-level view of a `DataInput` object: the field dictionary
maps names to array addresses in the heap. -/
structure DataInputRef where
  addrs : List (String × Nat)
  x : List ℚ
  y : List ℚ
  chg_proj : Bool
  trans : ℚ → ℚ → ℚ × ℚ

/-- The `nearestExpression` object at reference level: `self.data = data`
stores the array OBJECT, i.e. its address, not a copy. -/
structure nearestRef where
  addr : Nat
  xs : List ℚ
  ys : List ℚ
  chg_proj : Bool
  trans : ℚ → ℚ → ℚ × ℚ

/-- Reference-level `get_nearest_expression`: look the field's array object
up in the dictionary (`none` stands for `KeyError`), apply the in-place
`bool_data` conversion to that object, and store the reference in the new
expression.  Returns the possibly-updated heap with the expression. -/
def DataInputRef.get_nearest_expression (s : DataInputRef) (h : Heap)
    (fn : String) (bool_data : Bool) : Option (Heap × nearestRef) :=
  match s.addrs.lookup fn with
  | none => none
  | some a =>
    let h' := if bool_data then h.set a (boolClamp (heapGet h a)) else h
    some (h', { addr := a, xs := s.x, ys := s.y, chg_proj := s.chg_proj, trans := s.trans })

/-- Evaluating a `nearestExpression` dereferences `self.data` in the CURRENT
heap: the expression reads whatever the array holds at evaluation time. -/
def nearestRef.evalAt (e : nearestRef) (h : Heap) (x0 x1 : ℚ) : ℚ :=
  let p := if e.chg_proj then e.trans x0 x1 else (x0, x1)
  ((heapGet h e.addr).getD (nearestIdx e.ys p.2) []).getD (nearestIdx e.xs p.1) 0

/-- Reference-level `get_spline_expression`: after the optional in-place
`bool_data` conversion, `RectBivariateSpline(self.x, self.y, data.T)` fits
the spline from the array's CURRENT contents (see `RectBivariateSplineFit`);
the returned expression closes over the fitted object, not the array. -/
def DataInputRef.get_spline_expression (s : DataInputRef) (h : Heap)
    (fn : String) (kx ky : Nat) (bool_data : Bool) : Option (Heap × splineExpression) :=
  match s.addrs.lookup fn with
  | none => none
  | some a =>
    let h' := if bool_data then h.set a (boolClamp (heapGet h a)) else h
    some (h', { spline := { tx := s.x, ty := s.y, zT := transposeGrid (heapGet h' a),
                            kx := kx, ky := ky },
                chg_proj := s.chg_proj, trans := s.trans })

/-- Evaluating the spline expression in a program state: `newExpression.eval`
calls `spline(xn, yn)` on the object fitted at construction time, so the
current heap is not consulted. -/
def splineExpression.evalAt (e : splineExpression) (h : Heap) (x0 x1 : ℚ) : ℚ :=
  let _ := h
  e.eval x0 x1

/-- `d[d == old_val] = new_val` applied to a whole array value. -/
def mutGrid (old_val new_val : ℚ) (d : Grid) : Grid :=
  d.map (fun row => row.map (fun v => if v = old_val then new_val else v))

/-- `DataInput.set_data_val(fn, old_val, new_val)`: in-place edit of the
field's array object (`none` stands for `KeyError`). -/
def DataInputRef.set_data_val (s : DataInputRef) (h : Heap) (fn : String)
    (old_val new_val : ℚ) : Option Heap :=
  match s.addrs.lookup fn with
  | none => none
  | some a => some (h.set a (mutGrid old_val new_val (heapGet h a)))

/-- Sampling a grid by independent per-axis nearest lookup (the body of
`nearestExpression.eval` once the array value is fixed). -/
def nearestSample (d : Grid) (xs ys : List ℚ) (x0 x1 : ℚ) : ℚ :=
  (d.getD (nearestIdx ys x1) []).getD (nearestIdx xs x0) 0

/-- The window slice `d[r1:r2, c1:c2]` (Python slices clamp out-of-range
bounds, as `drop`/`take` do). -/
def windowSlice (d : Grid) (r1 r2 c1 c2 : Nat) : Grid :=
  ((d.drop r1).take (r2 - r1)).map (fun row => (row.drop c1).take (c2 - c1))

/-- `all(db > val)` over the window slice (numpy's `all` of an empty array is
`True`). -/
def windowAll (d : Grid) (r1 r2 c1 c2 : Nat) (val : ℚ) : Bool :=
  (windowSlice d r1 r2 c1 c2).all (fun row => row.all (fun w => val < w))

/-- One iteration of the vertex loop of `DataInput.integrate_field`: for the
vertex with index `k` at point `p`, find the per-axis nearest cell of the
specific dataset, and when its raw value `dv` exceeds `val` overwrite
`uocom[k]` with the specific projected value `uscom[k]` (window clear of the
border) or with `dv` (window touching values `<= val`).  `idy - r` and
`idx - r` are the `max(0, .)`-clamped lower window bounds (Nat subtraction
clamps at 0 exactly as `max(0, idy - r)` does). -/
def integrateStep (xs ys : List ℚ) (d : Grid) (nx ny r : Nat) (val : ℚ)
    (uscom : List ℚ) (k : Nat) (p : ℚ × ℚ) (u : List ℚ) : List ℚ :=
  let idx := nearestIdx xs p.1
  let idy := nearestIdx ys p.2
  let dv := (d.getD idy []).getD idx 0
  if val < dv then
    if windowAll d (idy - r) (min ny (idy + r)) (idx - r) (min nx (idx + r)) val then
      u.set k (uscom.getD k 0)
    else
      u.set k dv
  else
    u

/-- The vertex loop of `DataInput.integrate_field`: `vertices(self.mesh)`
enumerates the vertices in index order, so the counter `k` is `v.index()`. -/
def integrateLoop (xs ys : List ℚ) (d : Grid) (nx ny r : Nat) (val : ℚ)
    (uscom : List ℚ) : Nat → List (ℚ × ℚ) → List ℚ → List ℚ
  | _, [], u => u
  | k, p :: ps, u => integrateLoop xs ys d nx ny r val uscom (k + 1) ps
      (integrateStep xs ys d nx ny r val uscom k p u)

/-- `DataInput.integrate_field(fn_spec, specific, fn_main, r, val)`: the mesh
is the list of vertex points; `uocom`/`uscom` are the vertex values of the
projections of the main and the specific field (both computed by the external
FEM library); `d`, `xs`, `ys`, `nx`, `ny` belong to the specific dataset.
Returns the vertex values of the assimilated field (the final
`set_local(uocom[dfmap])` realizes exactly this vertex-indexed assignment
through the external dof map). -/
def integrate_field (mesh : List (ℚ × ℚ)) (uocom uscom : List ℚ) (d : Grid)
    (xs ys : List ℚ) (nx ny r : Nat) (val : ℚ) : List ℚ :=
  integrateLoop xs ys d nx ny r val uscom 0 mesh uocom

/-- The `MeshGenerator` state: the lines written to the `.geo` sink so far,
whether the file object has been closed, the registered refinement-field ids
(`self.fieldList`), and the line-loop string `self.loop` produced by
`write_gmsh_contour` (consumed by `add_edge_attractor`). -/
structure MeshGenerator where
  sink : List String
  closed : Bool
  fieldList : List Nat
  loop : String
deriving DecidableEq

/-- A Python value appearing in a `+`-concatenation chain inside a
`f.write(...)` argument: a `str` or a `float`. -/
inductive PyVal
  | str (s : String)
  | flt (q : ℚ)

/-- Python 2 `+` on such values: `str + str` concatenates, `float + float`
adds, and mixing `str` with `float` raises `TypeError` (which is what
`"..." + float(vin)` does in `MeshGenerator.add_box`). -/
def pyAdd : PyVal → PyVal → Except PyErr PyVal
  | PyVal.str a, PyVal.str b => Except.ok (PyVal.str (a ++ b))
  | PyVal.flt a, PyVal.flt b => Except.ok (PyVal.flt (a + b))
  | _, _ => Except.error PyErr.typeError

/-- A left-associated chain `v + w₁ + w₂ + ...`, stopping at the first
`TypeError`. -/
def pyConcat (v : PyVal) : List PyVal → Except PyErr PyVal
  | [] => Except.ok v
  | w :: ws =>
    match pyAdd v w with
    | Except.error e => Except.error e
    | Except.ok u => pyConcat u ws

/-- `self.f.write(line)`: append one line to the `.geo` sink. -/
def MeshGenerator.write (g : MeshGenerator) (line : String) : MeshGenerator :=
  { g with sink := g.sink ++ [line] }

/-- `f.write(v + w₁ + ...)`: build the argument first (raising `TypeError`
on a mixed concatenation, before anything is written), then write it;
writing a non-string also raises `TypeError`. -/
def MeshGenerator.writeVal (g : MeshGenerator) (v : PyVal) (rest : List PyVal) :
    MeshGenerator × Option PyErr :=
  match pyConcat v rest with
  | Except.ok (PyVal.str s) => (g.write s, none)
  | Except.ok (PyVal.flt _) => (g, some PyErr.typeError)
  | Except.error e => (g, some e)

/-- A sequence of `f.write` statements, stopped by the first raised error
(the exception propagates; lines already written stay in the sink). -/
def MeshGenerator.writeSeq (g : MeshGenerator) :
    List (PyVal × List PyVal) → MeshGenerator × Option PyErr
  | [] => (g, none)
  | (v, rest) :: more =>
    match g.writeVal v rest with
    | (g1, none) => g1.writeSeq more
    | (g1, some e) => (g1, some e)

/-- `MeshGenerator.add_box(field, vin, xmin, xmax, ymin, ymax, zmin, zmax)`:
the source concatenates `float(vin)` (and the other bounds) directly onto
strings, so after the `Box` header line every further line raises
`TypeError`; `self.fieldList.append(field)` comes after the writes and runs
only if they all succeed. -/
def MeshGenerator.add_box (g : MeshGenerator) (field : Nat)
    (vin xmin xmax ymin ymax zmin zmax : ℚ) : MeshGenerator × Option PyErr :=
  let fd := toString field
  match g.writeSeq [
      (PyVal.str ("Field[" ++ fd ++ "]      =  Box;\n"), []),
      (PyVal.str ("Field[" ++ fd ++ "].VIn  =  "), [PyVal.flt vin, PyVal.str (";\n")]),
      (PyVal.str ("Field[" ++ fd ++ "].VOut =  lc;\n"), []),
      (PyVal.str ("Field[" ++ fd ++ "].XMax =  "), [PyVal.flt xmax, PyVal.str (";\n")]),
      (PyVal.str ("Field[" ++ fd ++ "].XMin =  "), [PyVal.flt xmin, PyVal.str (";\n")]),
      (PyVal.str ("Field[" ++ fd ++ "].YMax =  "), [PyVal.flt ymax, PyVal.str (";\n")]),
      (PyVal.str ("Field[" ++ fd ++ "].YMin =  "), [PyVal.flt ymin, PyVal.str (";\n")]),
      (PyVal.str ("Field[" ++ fd ++ "].ZMax =  "), [PyVal.flt zmax, PyVal.str (";\n")]),
      (PyVal.str ("Field[" ++ fd ++ "].ZMin =  "), [PyVal.flt zmin, PyVal.str (";\n\n")])] with
  | (g1, some e) => (g1, some e)
  | (g1, none) => ({ g1 with fieldList := g1.fieldList ++ [field] }, none)

/-- `MeshGenerator.add_edge_attractor(field)`: write the `Attractor` field
statement referencing the boundary line loop.  The source never appends
`field` to `self.fieldList` here. -/
def MeshGenerator.add_edge_attractor (g : MeshGenerator) (field : Nat) : MeshGenerator :=
  let fd := toString field
  ((g.write ("Field[" ++ fd ++ "]              = Attractor;\n")).write
      ("Field[" ++ fd ++ "].NodesList    = " ++ g.loop ++ ";\n")).write
      ("Field[" ++ fd ++ "].NNodesByEdge = 100;\n\n")

/-- `MeshGenerator.add_threshold(field, ifield, lcMin, lcMax, distMin,
distMax)`: write the `Threshold` field statement (all parameters pass through
`str(...)`) and append `field` to `self.fieldList`. -/
def MeshGenerator.add_threshold (g : MeshGenerator) (field ifield : Nat)
    (lcMin lcMax distMin distMax : ℚ) : MeshGenerator :=
  let fd := toString field
  let g1 := (((((g.write ("Field[" ++ fd ++ "]         = Threshold;\n")).write
      ("Field[" ++ fd ++ "].IField  = " ++ toString ifield ++ ";\n")).write
      ("Field[" ++ fd ++ "].LcMin   = " ++ toString lcMin ++ ";\n")).write
      ("Field[" ++ fd ++ "].LcMax   = " ++ toString lcMax ++ ";\n")).write
      ("Field[" ++ fd ++ "].DistMin = " ++ toString distMin ++ ";\n")).write
      ("Field[" ++ fd ++ "].DistMax = " ++ toString distMax ++ ";\n\n")
  { g1 with fieldList := g1.fieldList ++ [field] }

/-- The comma-joined field list built by `MeshGenerator.finish`. -/
def joinFields : List Nat → String
  | [] => ""
  | [a] => toString a
  | a :: b :: t => toString a ++ ", " ++ joinFields (b :: t)

/-- `MeshGenerator.finish(field)`: with registered fields, write a `Min`
field over `self.fieldList` and make it the background field; with none,
write only `Background Field = <field>;` (referencing a field id that was
never defined).  The source then evaluates `f.close` WITHOUT calling it
(missing parentheses), so the sink is never closed and `closed` is left
unchanged. -/
def MeshGenerator.finish (g : MeshGenerator) (field : Nat) : MeshGenerator :=
  let fd := toString field
  if 0 < g.fieldList.length then
    ((g.write ("Field[" ++ fd ++ "]            = Min;\n")).write
        ("Field[" ++ fd ++ "].FieldsList = \x7b" ++ joinFields g.fieldList ++ "\x7d;\n")).write
        ("Background Field    = " ++ fd ++ ";\n\n")
  else
    g.write ("Background Field = " ++ fd ++ ";\n\n")

/-- `numpy.size` of a contour component (an `(n, 2)` array of vertices). -/
def npsize (a : List (ℚ × ℚ)) : Nat := 2 * a.length

/-- The component-selection loop of `MeshGenerator.create_contour`: running
index `ind`, current best size `amax` and its index `amax_ind`; a component
is selected only when its size STRICTLY exceeds the best so far (first
maximum wins). -/
def longestLoop : List (List (ℚ × ℚ)) → Nat → Nat → Nat → Nat
  | [], _, _, amax_ind => amax_ind
  | a :: rest, ind, amax, amax_ind =>
    if npsize a > amax then longestLoop rest (ind + 1) (npsize a) ind
    else longestLoop rest (ind + 1) amax amax_ind

/-- `MeshGenerator.create_contour(var, zero_cntr, skip_pts)`, given the list
`cl` of disjoint contour components produced by the external iso-contour
routine (`contour(...).allsegs[0]`): select the component with the most
vertices, keep every `skip_pts`-th vertex (`[::skip_pts]`) and drop the last
kept vertex (`[:-1]`) to avoid the closing overlap. -/
def create_contour (cl : List (List (ℚ × ℚ))) (skip_pts : Nat) : List (ℚ × ℚ) :=
  let amax_ind := longestLoop cl 0 0 0
  (everyNth skip_pts (cl.getD amax_ind [])).dropLast

/-- Concrete dataset view for evaluating the nearest interpolant: a 2x2 grid
with distinct axis coordinates. -/
def sN : DataInputProj :=
  { x := [0, 1], y := [0, 10], data := [("h", [[1, 2], [3, 4]])],
    chg_proj := false, trans := fun a b => (a, b), has_dg := false }

/-- Concrete dataset view with a discontinuous space available. -/
def sP : DataInputProj :=
  { x := [0], y := [0], data := [("h", [[1]])],
    chg_proj := false, trans := fun a b => (a, b), has_dg := true }

/-- Concrete reference-level dataset: one field `b` at heap address 0. -/
def s5 : DataInputRef :=
  { addrs := [("b", 0)], x := [0, 1], y := [0, 1],
    chg_proj := false, trans := fun a b => (a, b) }

/-- Concrete heap before mutation: field `b` holds the constant-5 array. -/
def h0 : Heap := [[[5, 5], [5, 5]]]

/-- The heap after `set_data_val("b", 5, 7)`: the same array object now
holds 7 everywhere. -/
def h1W : Heap := [[[7, 7], [7, 7]]]

/-- The nearest expression built over `b` before the mutation. -/
def eB : nearestRef :=
  { addr := 0, xs := [0, 1], ys := [0, 1], chg_proj := false, trans := s5.trans }

/-- The spline expression built over `b` before the mutation: its fit
captured the construction-time array contents. -/
def spB : splineExpression :=
  { spline := { tx := [0, 1], ty := [0, 1], zT := [[5, 5], [5, 5]], kx := 3, ky := 3 },
    chg_proj := false, trans := s5.trans }

/-- Concrete mesh-generator state with an empty sink and no registered
fields. -/
def gW : MeshGenerator :=
  { sink := [], closed := false, fieldList := [], loop := "\x7b0,1\x7d" }

/-- Concrete mesh-generator state with two registered refinement fields. -/
def gW9 : MeshGenerator :=
  { sink := [], closed := false, fieldList := [2, 4], loop := "" }

/-- Concrete contour component list: the second component has the most
vertices. -/
def clW : List (List (ℚ × ℚ)) := [[(0, 0)], [(0, 0), (1, 1), (2, 2)]]

/-- Concrete NaN group: one field whose second row is entirely NaN. -/
def sG : DataInput :=
  { x := [0, 1], y := [0, 1], x_min := 0, x_max := 1, y_min := 0, y_max := 1,
    nx := 2, ny := 2, good_x := [true, true], good_y := [true, false],
    rem_nans := true, data := [("h", [[some 1, some 2], [none, none]])] }

/-- The state of `sG` after `remove_nans`: the NaN row is gone, extents and
counts are recomputed. -/
def sGt : DataInput :=
  { x := [0, 1], y := [0], x_min := 0, x_max := 1, y_min := 0, y_max := 0,
    nx := 2, ny := 1, good_x := [true, true], good_y := [true, false],
    rem_nans := true, data := [("h", [[some 1, some 2]])] }

/-- Concrete NaN group whose rows are all masked away. -/
def sGbad : DataInput :=
  { x := [0, 1], y := [0, 1], x_min := 0, x_max := 1, y_min := 0, y_max := 1,
    nx := 2, ny := 2, good_x := [true, true], good_y := [false, false],
    rem_nans := true, data := [("h", [[none, none], [none, none]])] }

theorem qsub_eq_sub (a b : ℚ) : qsub a b = a - b := by
  rw [qsub, Rat.mkRat_eq_div]
  have ha : ((a.den : ℚ)) ≠ 0 := Nat.cast_ne_zero.mpr a.den_nz
  have hb : ((b.den : ℚ)) ≠ 0 := Nat.cast_ne_zero.mpr b.den_nz
  push_cast
  conv_rhs => rw [← Rat.num_div_den a, ← Rat.num_div_den b]
  rw [div_sub_div _ _ ha hb]
  congr 1
  ring

theorem absQ_eq_abs (q : ℚ) : absQ q = |q| := by
  by_cases h : q < 0
  · rw [absQ, if_pos h, abs_of_neg h]
  · rw [absQ, if_neg h, abs_of_nonneg (not_lt.mp h)]

theorem getD_set_ne {α : Type} (v d : α) :
    ∀ (u : List α) (k i : Nat), i ≠ k → (u.set k v).getD i d = u.getD i d := by
  intro u
  induction u with
  | nil => intro k i _; rfl
  | cons a t ih =>
    intro k i hne
    cases k with
    | zero =>
      cases i with
      | zero => exact absurd rfl hne
      | succ i => rfl
    | succ k =>
      cases i with
      | zero => rfl
      | succ i =>
        simp only [List.set_cons_succ, List.getD_cons_succ]
        exact ih k i (fun h => hne (by rw [h]))

theorem getD_set_self {α : Type} (v d : α) :
    ∀ (u : List α) (k : Nat), k < u.length → (u.set k v).getD k d = v := by
  intro u
  induction u with
  | nil => intro k hk; simp at hk
  | cons a t ih =>
    intro k hk
    cases k with
    | zero => rfl
    | succ k =>
      simp only [List.set_cons_succ, List.getD_cons_succ]
      exact ih k (by simpa using hk)

section IntegrateField

variable (xs ys : List ℚ) (d : Grid) (nx ny r : Nat) (val : ℚ) (uscom : List ℚ)

theorem integrateStep_length (k : Nat) (p : ℚ × ℚ) (u : List ℚ) :
    (integrateStep xs ys d nx ny r val uscom k p u).length = u.length := by
  simp only [integrateStep]
  split_ifs <;> simp

theorem integrateStep_getD_ne (k i : Nat) (p : ℚ × ℚ) (u : List ℚ) (hne : i ≠ k) :
    (integrateStep xs ys d nx ny r val uscom k p u).getD i 0 = u.getD i 0 := by
  simp only [integrateStep]
  split_ifs <;> first | rw [getD_set_ne _ _ _ _ _ hne] | rfl

theorem integrateStep_getD_outer (k i : Nat) (p q : ℚ × ℚ) (u : List ℚ)
    (hi : i < u.length) (hne : i ≠ k) :
    (integrateStep xs ys d nx ny r val uscom i q
        (integrateStep xs ys d nx ny r val uscom k p u)).getD i 0 =
      (integrateStep xs ys d nx ny r val uscom i q u).getD i 0 := by
  have hlen : (integrateStep xs ys d nx ny r val uscom k p u).length = u.length :=
    integrateStep_length xs ys d nx ny r val uscom k p u
  conv_lhs => rw [integrateStep]
  conv_rhs => rw [integrateStep]
  split_ifs
  · rw [getD_set_self _ _ _ _ (by rw [hlen]; exact hi), getD_set_self _ _ _ _ hi]
  · rw [getD_set_self _ _ _ _ (by rw [hlen]; exact hi), getD_set_self _ _ _ _ hi]
  · exact integrateStep_getD_ne xs ys d nx ny r val uscom k i p u hne

theorem integrateLoop_getD_lt :
    ∀ (ps : List (ℚ × ℚ)) (k : Nat) (u : List ℚ) (i : Nat), i < k →
      (integrateLoop xs ys d nx ny r val uscom k ps u).getD i 0 = u.getD i 0 := by
  intro ps
  induction ps with
  | nil => intro k u i _; rfl
  | cons p ps ih =>
    intro k u i hik
    simp only [integrateLoop]
    rw [ih (k + 1) _ i (Nat.lt_succ_of_lt hik)]
    exact integrateStep_getD_ne xs ys d nx ny r val uscom k i p u (Nat.ne_of_lt hik)

theorem integrateLoop_getD :
    ∀ (ps : List (ℚ × ℚ)) (k : Nat) (u : List ℚ) (i : Nat),
      i < u.length → k ≤ i → i - k < ps.length →
      (integrateLoop xs ys d nx ny r val uscom k ps u).getD i 0 =
        (integrateStep xs ys d nx ny r val uscom i (ps.getD (i - k) (0, 0)) u).getD i 0 := by
  intro ps
  induction ps with
  | nil => intro k u i _ _ h; simp at h
  | cons p ps ih =>
    intro k u i hi hki hlen
    simp only [integrateLoop]
    rcases eq_or_lt_of_le hki with heq | hlt
    · subst heq
      rw [Nat.sub_self, List.getD_cons_zero]
      exact integrateLoop_getD_lt xs ys d nx ny r val uscom ps (k + 1) _ k (Nat.lt_succ_self k)
    · have hstep : (integrateStep xs ys d nx ny r val uscom k p u).length = u.length :=
        integrateStep_length xs ys d nx ny r val uscom k p u
    
      have hik : i - (k + 1) < ps.length := by
        have : i - k < ps.length + 1 := by simpa using hlen
        omega
      rw [ih (k + 1) _ i (by rw [hstep]; exact hi) hlt hik]
      have hidx : i - k = (i - (k + 1)) + 1 := by omega
      rw [hidx, List.getD_cons_succ]
      exact integrateStep_getD_outer xs ys d nx ny r val uscom k i p _ u hi
        (Nat.ne_of_gt hlt)

end IntegrateField

/-- C1: In `DataInput.integrate_field`, for every vertex `i` of the primary
adapter's mesh, with `dv` the secondary raster's raw value at the per-axis
nearest cell `(idy, idx)` and `w` the all-above-`val` test of the
`r`-cell window of the secondary raster around that cell: if `dv > val` and
the window is entirely above `val` the returned field's value at the vertex
is the secondary projected value `uscom[i]`; if `dv > val` but the window
touches a value `<= val` it is the raw nearest-cell value `dv`; and if
`dv <= val` it is the primary projected value `uocom[i]`, unchanged. -/
theorem integrate_field_vertex_cases
    (mesh : List (ℚ × ℚ)) (uocom uscom : List ℚ) (d : Grid) (xs ys : List ℚ)
    (nx ny r : Nat) (val : ℚ) (i idx idy : Nat) (dv : ℚ) (w : Bool)
    (hi : i < mesh.length) (hu : uocom.length = mesh.length)
    (hidx : idx = nearestIdx xs (mesh.getD i (0, 0)).1)
    (hidy : idy = nearestIdx ys (mesh.getD i (0, 0)).2)
    (hdv : dv = (d.getD idy []).getD idx 0)
    (hw : w = windowAll d (idy - r) (min ny (idy + r)) (idx - r) (min nx (idx + r)) val) :
    (val < dv ∧ w = true →
      (integrate_field mesh uocom uscom d xs ys nx ny r val).getD i 0 = uscom.getD i 0) ∧
    (val < dv ∧ w = false →
      (integrate_field mesh uocom uscom d xs ys nx ny r val).getD i 0 = dv) ∧
    (dv ≤ val →
      (integrate_field mesh uocom uscom d xs ys nx ny r val).getD i 0 = uocom.getD i 0) := by
  have hiu : i < uocom.length := by rw [hu]; exact hi
  have hkey : (integrate_field mesh uocom uscom d xs ys nx ny r val).getD i 0 =
      (integrateStep xs ys d nx ny r val uscom i (mesh.getD i (0, 0)) uocom).getD i 0 := by
    have := integrateLoop_getD xs ys d nx ny r val uscom mesh 0 uocom i hiu
      (Nat.zero_le i) (by simpa using hi)
    simpa [integrate_field] using this
  subst hidx hidy hdv hw
  refine ⟨?_, ?_, ?_⟩
  · rintro ⟨h1, h2⟩
    rw [hkey]
    simp only [integrateStep]
    rw [if_pos h1, if_pos h2]
    exact getD_set_self _ _ _ _ hiu
  · rintro ⟨h1, h2⟩
    rw [hkey]
    simp only [integrateStep]
    rw [if_pos h1, if_neg (by rw [h2]; exact Bool.false_ne_true)]
    exact getD_set_self _ _ _ _ hiu
  · intro h1
    rw [hkey]
    simp only [integrateStep]
    rw [if_neg (not_lt.mpr h1)]

theorem integrate_field_vertex_cases_witness :
    ((0 : ℚ) < 3 ∧ true = true) ∧
      (integrate_field [((0 : ℚ), (0 : ℚ))] [1] [2] [[3]] [0] [0] 1 1 1 0).getD 0 0 = 2 :=
  ⟨⟨by decide, rfl⟩,
    (integrate_field_vertex_cases [((0 : ℚ), (0 : ℚ))] [1] [2] [[3]] [0] [0] 1 1 1 0 0 0 0 3 true
        (by decide) (by decide) (by decide) (by decide) (by decide) (by decide)).1
      ⟨by decide, rfl⟩⟩

theorem listMin_le : ∀ {l : List ℚ} {a : ℚ}, a ∈ l → listMin l ≤ a := by
  intro l
  induction l with
  | nil => intro a ha; simp at ha
  | cons b t ih =>
    intro a ha
    cases t with
    | nil =>
      rcases List.mem_cons.mp ha with h | h
      · subst h; exact le_refl _
      · simp at h
    | cons c t2 =>
      rw [listMin]
      rcases List.mem_cons.mp ha with h | h
      · subst h; exact min_le_left _ _
      · exact le_trans (min_le_right _ _) (ih h)

theorem listMin_mem : ∀ (l : List ℚ), l ≠ [] → listMin l ∈ l := by
  intro l
  induction l with
  | nil => intro h; exact absurd rfl h
  | cons b t ih =>
    intro _
    cases t with
    | nil => simp [listMin]
    | cons c t2 =>
      rw [listMin]
      rcases min_cases b (listMin (c :: t2)) with ⟨heq, _⟩ | ⟨heq, _⟩
      · rw [heq]; exact List.mem_cons_self _ _
      · rw [heq]; exact List.mem_cons_of_mem _ (ih (by simp))

theorem findIdx_first {α : Type} (p : α → Bool) (d0 : α) :
    ∀ (l : List α) (j : Nat), j < l.length →
      (∀ k, k < j → p (l.getD k d0) = false) → p (l.getD j d0) = true →
      l.findIdx p = j := by
  intro l
  induction l with
  | nil => intro j hj _ _; simp at hj
  | cons a t ih =>
    intro j hj hlt hp
    cases j with
    | zero =>
      simp only [List.getD_cons_zero] at hp
      simp [List.findIdx_cons, hp]
    | succ j =>
      have ha : p a = false := by
        have := hlt 0 (Nat.succ_pos j)
        simpa using this
      simp only [List.getD_cons_succ] at hp
      have hj2 : j < t.length := by simpa using hj
      have hlt2 : ∀ k, k < j → p (t.getD k d0) = false := by
        intro k hk
        have := hlt (k + 1) (Nat.succ_lt_succ hk)
        simpa using this
      simp [List.findIdx_cons, ha, ih j hj2 hlt2 hp]

theorem getD_mem {α : Type} (d0 : α) :
    ∀ (l : List α) (j : Nat), j < l.length → l.getD j d0 ∈ l := by
  intro l
  induction l with
  | nil => intro j hj; simp at hj
  | cons a t ih =>
    intro j hj
    cases j with
    | zero => exact List.mem_cons_self _ _
    | succ j =>
      simp only [List.getD_cons_succ]
      exact List.mem_cons_of_mem _ (ih j (by simpa using hj))

theorem mem_getD {α : Type} (d0 : α) :
    ∀ (l : List α) (a : α), a ∈ l → ∃ k, k < l.length ∧ l.getD k d0 = a := by
  intro l
  induction l with
  | nil => intro a ha; simp at ha
  | cons b t ih =>
    intro a ha
    rcases List.mem_cons.mp ha with h | h
    · exact ⟨0, by simp, by simp [h.symm]⟩
    · obtain ⟨k, hk, hkeq⟩ := ih a h
      exact ⟨k + 1, by simpa using hk, by simpa using hkeq⟩

theorem getD_eq_get {α : Type} (d0 : α) :
    ∀ (l : List α) (j : Nat) (h : j < l.length), l.getD j d0 = l.get ⟨j, h⟩ := by
  intro l
  induction l with
  | nil => intro j h; simp at h
  | cons a t ih =>
    intro j h
    cases j with
    | zero => rfl
    | succ j => simpa using ih j (by simpa using h)

theorem argmin_unique (l : List ℚ) (j : Nat) (hj : j < l.length)
    (hmin : ∀ k, k < l.length → k ≠ j → l.getD j 0 < l.getD k 0) : argmin l = j := by
  have hne : l ≠ [] := List.length_pos.mp (lt_of_le_of_lt (Nat.zero_le j) hj)
  have hjmem : l.getD j 0 ∈ l := getD_mem 0 l j hj
  have heq : listMin l = l.getD j 0 := by
    obtain ⟨k, hk, hkeq⟩ := mem_getD 0 l (listMin l) (listMin_mem l hne)
    by_cases hkj : k = j
    · rw [← hkeq, hkj]
    · exact absurd (lt_of_lt_of_le (hmin k hk hkj) (hkeq ▸ listMin_le hjmem)) (lt_irrefl _)
  apply findIdx_first _ 0 l j hj
  · intro k hk
    have hkl : k < l.length := lt_trans hk hj
    refine beq_eq_false_iff_ne.mpr ?_
    intro hcontra
    have := hmin k hkl (Nat.ne_of_lt hk)
    rw [← heq, hcontra] at this
    exact lt_irrefl _ this
  · exact beq_iff_eq.mpr heq.symm

theorem getD_map (f : ℚ → ℚ) :
    ∀ (l : List ℚ) (k : Nat), k < l.length → (l.map f).getD k 0 = f (l.getD k 0) := by
  intro l
  induction l with
  | nil => intro k hk; simp at hk
  | cons a t ih =>
    intro k hk
    cases k with
    | zero => rfl
    | succ k => simpa using ih k (by simpa using hk)

theorem pairwise_ne_getD (l : List ℚ) (h : List.Pairwise (fun a b => a ≠ b) l) :
    ∀ k j, k < l.length → j < l.length → k ≠ j → l.getD k 0 ≠ l.getD j 0 := by
  intro k j hk hj hkj
  have hpg := List.pairwise_iff_get.mp h
  rw [getD_eq_get 0 l k hk, getD_eq_get 0 l j hj]
  rcases Nat.lt_or_ge k j with hlt | hge
  · exact hpg ⟨k, hk⟩ ⟨j, hj⟩ hlt
  · have hlt2 : j < k := lt_of_le_of_ne hge (fun hcontra => hkj hcontra.symm)
    exact (hpg ⟨j, hj⟩ ⟨k, hk⟩ hlt2).symm

theorem nearestIdx_getD (l : List ℚ) (j : Nat) (hj : j < l.length)
    (hdist : List.Pairwise (fun a b => a ≠ b) l) :
    nearestIdx l (l.getD j 0) = j := by
  unfold nearestIdx
  apply argmin_unique
  · simpa using hj
  · intro k hk hkj
    rw [List.length_map] at hk
    rw [getD_map _ _ _ hk, getD_map _ _ _ hj]
    rw [absQ_eq_abs, absQ_eq_abs, qsub_eq_sub, qsub_eq_sub, sub_self, abs_zero]
    exact abs_pos.mpr (sub_ne_zero.mpr (pairwise_ne_getD l hdist k j hk hj hkj))

/-- C2: `DataInput.get_nearest_expression` with no reprojection declared and
`bool_data` false evaluates at `(x0, x1)` to `data[idy, idx]` where `idx`
minimizes `|x[j] - x0|` and `idy` minimizes `|y[i] - x1|`, each axis treated
independently; consequently, for pairwise-distinct coordinate arrays (as
strictly monotonic arrays are), evaluation at the grid sample coordinate
`(x[j], y[i])` returns exactly the sample value `data[i, j]`. -/
theorem nearest_expression_grid_identity (s : DataInputProj) (fn : String)
    (hc : s.chg_proj = false)
    (hx : List.Pairwise (fun a b => a ≠ b) s.x)
    (hy : List.Pairwise (fun a b => a ≠ b) s.y) :
    (∀ x0 x1 : ℚ, (s.get_nearest_expression fn false).eval x0 x1 =
        ((lookupField s.data fn).getD (nearestIdx s.y x1) []).getD (nearestIdx s.x x0) 0) ∧
    (∀ i j : Nat, i < s.y.length → j < s.x.length →
        (s.get_nearest_expression fn false).eval (s.x.getD j 0) (s.y.getD i 0) =
          ((lookupField s.data fn).getD i []).getD j 0) := by
  constructor
  · intro x0 x1
    simp [nearestExpression.eval, DataInputProj.get_nearest_expression, boolConv, hc]
  · intro i j hi hj
    have h1 := nearestIdx_getD s.x j hj hx
    have h2 := nearestIdx_getD s.y i hi hy
    simp at h1 h2
    simp [nearestExpression.eval, DataInputProj.get_nearest_expression, boolConv, hc, h1, h2]

theorem nearest_expression_grid_identity_witness :
    (sN.get_nearest_expression ("h") false).eval (sN.x.getD 0 0) (sN.y.getD 1 0) =
      ((lookupField sN.data ("h")).getD 1 []).getD 0 0 :=
  (nearest_expression_grid_identity sN ("h") rfl (by decide) (by decide)).2 1 0
    (by decide) (by decide)

theorem maskFilter_length {α : Type} :
    ∀ (mask : List Bool) (l : List α), mask.length = l.length →
      (maskFilter mask l).length = countTrue mask := by
  intro mask
  induction mask with
  | nil => intro l _; simp [maskFilter, countTrue]
  | cons b bs ih =>
    intro l h
    cases l with
    | nil => simp at h
    | cons a t =>
      have h2 : bs.length = t.length := by simpa using h
      cases b <;> simp [maskFilter, countTrue, List.count_cons] <;>
        simpa [countTrue] using ih t h2

theorem mem_of_mem_maskFilter {α : Type} :
    ∀ (mask : List Bool) (l : List α) (a : α), a ∈ maskFilter mask l → a ∈ l := by
  intro mask
  induction mask with
  | nil => intro l a h; simp [maskFilter] at h
  | cons b bs ih =>
    intro l a h
    cases l with
    | nil => simp [maskFilter] at h
    | cons c t =>
      cases b with
      | true =>
        rcases List.mem_cons.mp (by simpa [maskFilter] using h) with h2 | h2
        · simp [h2]
        · exact List.mem_cons_of_mem _ (ih t a h2)
      | false =>
        exact List.mem_cons_of_mem _ (ih t a (by simpa [maskFilter] using h))

theorem maskFilter_eq_nil_iff {α : Type} (mask : List Bool) (l : List α)
    (h : mask.length = l.length) : (maskFilter mask l = [] ↔ countTrue mask = 0) := by
  rw [← List.length_eq_zero, maskFilter_length mask l h]

/-- C3: After `DataInput.remove_nans`, for a group whose masks and fields have
the loaded-together shapes: the trimmed coordinate arrays are the mask-filtered
ones (shared by every field of the group), every field's array has shape
`(ny, nx)` with `nx`/`ny` the counts of surviving good columns/rows, and the
extents equal the minimum and maximum of the surviving coordinates. -/
theorem remove_nans_group_shapes (s s' : DataInput)
    (hgx : s.good_x.length = s.x.length) (hgy : s.good_y.length = s.y.length)
    (hdata : ∀ p ∈ s.data,
      p.2.length = s.good_y.length ∧ ∀ row ∈ p.2, row.length = s.good_x.length)
    (hok : s.remove_nans = Except.ok s') :
    s'.x = maskFilter s.good_x s.x ∧ s'.y = maskFilter s.good_y s.y ∧
    s'.nx = countTrue s.good_x ∧ s'.ny = countTrue s.good_y ∧
    (∀ p ∈ s'.data, p.2.length = s'.ny ∧ ∀ row ∈ p.2, row.length = s'.nx) ∧
    s'.x_min = listMin s'.x ∧ s'.x_max = listMax s'.x ∧
    s'.y_min = listMin s'.y ∧ s'.y_max = listMax s'.y := by
  rcases hX : maskFilter s.good_x s.x with _ | ⟨xa, xt⟩
  · simp [DataInput.remove_nans, hX] at hok
  rcases hY : maskFilter s.good_y s.y with _ | ⟨ya, yt⟩
  · simp [DataInput.remove_nans, hX, hY] at hok
  simp only [DataInput.remove_nans, hX, hY, Except.ok.injEq] at hok
  subst hok
  refine ⟨rfl, rfl, ?_, ?_, ?_, rfl, rfl, rfl, rfl⟩
  · show (xa :: xt).length = countTrue s.good_x
    rw [← hX]
    exact maskFilter_length s.good_x s.x hgx
  · show (ya :: yt).length = countTrue s.good_y
    rw [← hY]
    exact maskFilter_length s.good_y s.y hgy
  · intro p hp
    obtain ⟨q, hq, hpq⟩ := List.mem_map.mp hp
    obtain ⟨hql, hqr⟩ := hdata q hq
    subst hpq
    constructor
    · show ((maskFilter s.good_y q.2).map (fun row => maskFilter s.good_x row)).length =
        (ya :: yt).length
      rw [List.length_map, maskFilter_length s.good_y q.2 (by rw [hql]), ← hY]
      exact (maskFilter_length s.good_y s.y hgy).symm
    · intro row hrow
      obtain ⟨row0, hrow0, hroweq⟩ := List.mem_map.mp hrow
      subst hroweq
      show (maskFilter s.good_x row0).length = (xa :: xt).length
      have hr0 : row0 ∈ q.2 := mem_of_mem_maskFilter s.good_y q.2 row0 hrow0
      rw [maskFilter_length s.good_x row0 (by rw [(hqr row0 hr0)]), ← hX]
      exact (maskFilter_length s.good_x s.x hgx).symm

theorem remove_nans_group_shapes_witness :
    sGt.x = maskFilter sG.good_x sG.x ∧ sGt.y = maskFilter sG.good_y sG.y ∧
    sGt.nx = countTrue sG.good_x ∧ sGt.ny = countTrue sG.good_y ∧
    (∀ p ∈ sGt.data, p.2.length = sGt.ny ∧ ∀ row ∈ p.2, row.length = sGt.nx) ∧
    sGt.x_min = listMin sGt.x ∧ sGt.x_max = listMax sGt.x ∧
    sGt.y_min = listMin sGt.y ∧ sGt.y_max = listMax sGt.y :=
  remove_nans_group_shapes sG sGt (by decide) (by decide) (by decide) (by rfl)

/-- C6: `DataInput.remove_nans` fails (the failure the spec names
`DegenerateDomainError`, raised from the empty-axis reduction) exactly when
the masks leave zero surviving columns or zero surviving rows; with at least
one surviving column and row it succeeds without error. -/
theorem remove_nans_degenerate_iff (s : DataInput)
    (hgx : s.good_x.length = s.x.length) (hgy : s.good_y.length = s.y.length) :
    (s.remove_nans = Except.error TrimError.degenerateDomain ↔
      countTrue s.good_x = 0 ∨ countTrue s.good_y = 0) ∧
    (0 < countTrue s.good_x → 0 < countTrue s.good_y →
      ∃ s', s.remove_nans = Except.ok s') := by
  rcases hX : maskFilter s.good_x s.x with _ | ⟨xa, xt⟩
  · have hcx : countTrue s.good_x = 0 := (maskFilter_eq_nil_iff s.good_x s.x hgx).mp hX
    constructor
    · constructor
      · intro _; exact Or.inl hcx
      · intro _; simp [DataInput.remove_nans, hX]
    · intro hpos _; rw [hcx] at hpos; exact absurd hpos (lt_irrefl 0)
  · rcases hY : maskFilter s.good_y s.y with _ | ⟨ya, yt⟩
    · have hcy : countTrue s.good_y = 0 := (maskFilter_eq_nil_iff s.good_y s.y hgy).mp hY
      constructor
      · constructor
        · intro _; exact Or.inr hcy
        · intro _; simp [DataInput.remove_nans, hX, hY]
      · intro _ hpos; rw [hcy] at hpos; exact absurd hpos (lt_irrefl 0)
    · constructor
      · constructor
        · intro herr
          simp [DataInput.remove_nans, hX, hY] at herr
        · rintro (hc | hc)
          · have := (maskFilter_eq_nil_iff s.good_x s.x hgx).mpr hc
            rw [hX] at this
            simp at this
          · have := (maskFilter_eq_nil_iff s.good_y s.y hgy).mpr hc
            rw [hY] at this
            simp at this
      · intro _ _
        have hok : s.remove_nans = Except.ok { s with
            x := xa :: xt, y := ya :: yt,
            x_min := listMin (xa :: xt), x_max := listMax (xa :: xt),
            y_min := listMin (ya :: yt), y_max := listMax (ya :: yt),
            nx := (xa :: xt).length, ny := (ya :: yt).length,
            data := s.data.map (fun p =>
              (p.1, (maskFilter s.good_y p.2).map (fun row => maskFilter s.good_x row))) } := by
          simp [DataInput.remove_nans, hX, hY]
        exact ⟨_, hok⟩

theorem remove_nans_degenerate_iff_witness :
    ((sGbad.remove_nans = Except.error TrimError.degenerateDomain ↔
        countTrue sGbad.good_x = 0 ∨ countTrue sGbad.good_y = 0) ∧
      (0 < countTrue sGbad.good_x → 0 < countTrue sGbad.good_y →
        ∃ s', sGbad.remove_nans = Except.ok s')) ∧
    sGbad.remove_nans = Except.error TrimError.degenerateDomain :=
  ⟨remove_nans_degenerate_iff sGbad (by decide) (by decide), by rfl⟩

theorem zipWith_and_idem : ∀ (c g : List Bool),
    List.zipWith (fun c g => !c && g) c (List.zipWith (fun c g => !c && g) c g) =
      List.zipWith (fun c g => !c && g) c g := by
  intro c
  induction c with
  | nil => intro g; rfl
  | cons a cs ih =>
    intro g
    cases g with
    | nil => rfl
    | cons b gs =>
      simp only [List.zipWith_cons_cons]
      congr 1
      · rw [← Bool.and_assoc, Bool.and_self]
      · exact ih gs

theorem anyDiff_self : ∀ (l : List Bool), anyDiff l l = false := by
  intro l
  induction l with
  | nil => rfl
  | cons a t ih =>
    simp only [anyDiff, List.zipWith_cons_cons, List.any_cons, bne_self_eq_false,
      Bool.false_or, id]
    simp only [anyDiff] at ih
    exact ih

theorem anyDiff_and_iff : ∀ (c g : List Bool),
    (anyDiff (List.zipWith (fun c g => !c && g) c g) g = true ↔
      ∃ i, i < c.length ∧ i < g.length ∧
        g.getD i false = true ∧ c.getD i false = true) := by
  intro c
  induction c with
  | nil =>
    intro g
    constructor
    · intro h; simp [anyDiff] at h
    · rintro ⟨i, hi, _⟩; simp at hi
  | cons a cs ih =>
    intro g
    cases g with
    | nil =>
      constructor
      · intro h; simp [anyDiff] at h
      · rintro ⟨i, _, hi, _⟩; simp at hi
    | cons b gs =>
      constructor
      · intro h
        simp only [List.zipWith_cons_cons, anyDiff, List.any_cons, id,
          Bool.or_eq_true] at h
        rcases h with h | h
        · refine ⟨0, by simp, by simp, ?_, ?_⟩ <;>
            (cases a <;> cases b <;> simp_all)
        · obtain ⟨i, hic, hig, hg, hc⟩ := (ih gs).mp (by simpa [anyDiff] using h)
          exact ⟨i + 1, by simpa using hic, by simpa using hig, by simpa using hg,
            by simpa using hc⟩
      · rintro ⟨i, hic, hig, hg, hc⟩
        simp only [List.zipWith_cons_cons, anyDiff, List.any_cons, id, Bool.or_eq_true]
        cases i with
        | zero =>
          left
          simp only [List.getD_cons_zero] at hg hc
          rw [hg, hc]
          rfl
        | succ i =>
          right
          have := (ih gs).mpr ⟨i, by simpa using hic, by simpa using hig,
            by simpa using hg, by simpa using hc⟩
          simpa [anyDiff] using this

/-- C4: `DataInput.identify_nans` ANDs the complement of the field's per-axis
all-NaN mask into the group's running `good_x`/`good_y` masks, and the dirty
flag `rem_nans` holds afterwards exactly when it already held or some
previously-good column/row index is all-NaN in this field; the operation is
idempotent: a second call with the same field leaves the state exactly as
after the first call. -/
theorem identify_nans_and_idempotent :
    ∀ (d : NGrid) (fn : String) (s : DataInput),
      ((s.identify_nans d fn).good_x =
          List.zipWith (fun c g => !c && g) (col_all_nan d) s.good_x) ∧
      ((s.identify_nans d fn).good_y =
          List.zipWith (fun c g => !c && g) (row_all_nan d) s.good_y) ∧
      ((s.identify_nans d fn).rem_nans = true ↔
        (s.rem_nans = true ∨
          (∃ i, i < (col_all_nan d).length ∧ i < s.good_x.length ∧
            s.good_x.getD i false = true ∧ (col_all_nan d).getD i false = true) ∨
          (∃ i, i < (row_all_nan d).length ∧ i < s.good_y.length ∧
            s.good_y.getD i false = true ∧ (row_all_nan d).getD i false = true))) ∧
      (s.identify_nans d fn).identify_nans d fn = s.identify_nans d fn := by
  intro d fn s
  refine ⟨rfl, rfl, ?_, ?_⟩
  · simp only [DataInput.identify_nans, Bool.or_eq_true]
    rw [anyDiff_and_iff, anyDiff_and_iff]
    exact or_assoc
  · cases s with
    | mk x y xmin xmax ymin ymax nx ny gx gy rem data =>
      simp [DataInput.identify_nans, zipWith_and_idem, anyDiff_self]

theorem everyNthAux_getD {α : Type} (k : Nat) (hk : 1 ≤ k) (d0 : α) :
    ∀ (l : List α) (j m : Nat),
      (everyNthAux k j l).getD m d0 = l.getD (j + m * k) d0 := by
  intro l
  induction l with
  | nil => intro j m; cases j <;> rfl
  | cons a t ih =>
    intro j m
    cases j with
    | zero =>
      cases m with
      | zero => simp [everyNthAux]
      | succ m =>
        have harith : 0 + (m + 1) * k = ((k - 1) + m * k) + 1 := by
          rw [Nat.succ_mul]
          omega
        rw [harith]
        simp only [everyNthAux, List.getD_cons_succ]
        exact ih (k - 1) m
    | succ j =>
      have harith : j + 1 + m * k = (j + m * k) + 1 := by omega
      rw [harith]
      simp only [everyNthAux, List.getD_cons_succ]
      exact ih j m

theorem everyNth_getD {α : Type} (k : Nat) (hk : 1 ≤ k) (d0 : α) (l : List α) (m : Nat) :
    (everyNth k l).getD m d0 = l.getD (m * k) d0 := by
  have := everyNthAux_getD k hk d0 l 0 m
  simpa [everyNth] using this

theorem longestLoop_spec :
    ∀ (cl : List (List (ℚ × ℚ))) (ind amax amax_ind : Nat),
      (longestLoop cl ind amax amax_ind = amax_ind ∧ ∀ a ∈ cl, npsize a ≤ amax) ∨
      (∃ j, j < cl.length ∧ longestLoop cl ind amax amax_ind = ind + j ∧
        amax < npsize (cl.getD j []) ∧ ∀ a ∈ cl, npsize a ≤ npsize (cl.getD j [])) := by
  intro cl
  induction cl with
  | nil =>
    intro ind amax amax_ind
    left
    exact ⟨rfl, by simp⟩
  | cons a rest ih =>
    intro ind amax amax_ind
    by_cases h : npsize a > amax
    · have heq : longestLoop (a :: rest) ind amax amax_ind =
          longestLoop rest (ind + 1) (npsize a) ind := by
        simp [longestLoop, h]
      rcases ih (ind + 1) (npsize a) ind with ⟨hres, hall⟩ | ⟨j, hj, hres, hgt, hall⟩
      · right
        refine ⟨0, by simp, ?_, ?_, ?_⟩
        · rw [heq, hres]; omega
        · simpa using h
        · intro b hb
          rcases List.mem_cons.mp hb with hb | hb
          · subst hb; simp
          · simpa using hall b hb
      · right
        refine ⟨j + 1, by simpa using hj, ?_, ?_, ?_⟩
        · rw [heq, hres]; omega
        · simpa using lt_trans h hgt
        · intro b hb
          rcases List.mem_cons.mp hb with hb | hb
          · subst hb; simpa using le_of_lt hgt
          · simpa using hall b hb
    · have hle : npsize a ≤ amax := not_lt.mp h
      have heq : longestLoop (a :: rest) ind amax amax_ind =
          longestLoop rest (ind + 1) amax amax_ind := by
        simp [longestLoop, h]
      rcases ih (ind + 1) amax amax_ind with ⟨hres, hall⟩ | ⟨j, hj, hres, hgt, hall⟩
      · left
        refine ⟨heq ▸ hres, ?_⟩
        intro b hb
        rcases List.mem_cons.mp hb with hb | hb
        · subst hb; exact hle
        · exact hall b hb
      · right
        refine ⟨j + 1, by simpa using hj, ?_, ?_, ?_⟩
        · rw [heq, hres]; omega
        · simpa using hgt
        · intro b hb
          rcases List.mem_cons.mp hb with hb | hb
          · subst hb; simpa using le_trans hle (le_of_lt hgt)
          · simpa using hall b hb

/-- C7: `MeshGenerator.create_contour`, given the disjoint contour components
from the external iso-contour routine (`cl` nonempty, stride at least 1),
selects a component with the most vertices, and the stored polyline is that
component's every-`skip_pts`-th-vertex subsample (starting from its first
vertex, as the index identity in the last conjunct states) with the final
subsampled vertex (the closing duplicate) dropped. -/
theorem create_contour_longest_subsample (cl : List (List (ℚ × ℚ))) (skip_pts : Nat)
    (hne : cl ≠ []) (hs : 1 ≤ skip_pts) :
    ∃ i, i < cl.length ∧
      (∀ a ∈ cl, a.length ≤ (cl.getD i []).length) ∧
      create_contour cl skip_pts = (everyNth skip_pts (cl.getD i [])).dropLast ∧
      (∀ m : Nat, (everyNth skip_pts (cl.getD i [])).getD m (0, 0) =
        (cl.getD i []).getD (m * skip_pts) (0, 0)) := by
  rcases longestLoop_spec cl 0 0 0 with ⟨hres, hall⟩ | ⟨j, hj, hres, _, hall⟩
  · refine ⟨0, List.length_pos.mpr hne, ?_, ?_, fun m => everyNth_getD skip_pts hs (0, 0) _ m⟩
    · intro a ha
      have h2 := hall a ha
      unfold npsize at h2
      omega
    · simp [create_contour, hres]
  · refine ⟨j, hj, ?_, ?_, fun m => everyNth_getD skip_pts hs (0, 0) _ m⟩
    · intro a ha
      have h2 := hall a ha
      unfold npsize at h2
      omega
    · simp [create_contour, hres]

theorem create_contour_longest_subsample_witness :
    clW ≠ [] ∧ 1 ≤ 1 ∧
      (∃ i, i < clW.length ∧
        (∀ a ∈ clW, a.length ≤ (clW.getD i []).length) ∧
        create_contour clW 1 = (everyNth 1 (clW.getD i [])).dropLast ∧
        (∀ m : Nat, (everyNth 1 (clW.getD i [])).getD m (0, 0) =
          (clW.getD i []).getD (m * 1) (0, 0))) :=
  ⟨by decide, by decide, create_contour_longest_subsample clW 1 (by decide) (by decide)⟩

/-- C8 (amended): `add_threshold` appends its `Threshold` statement to the
sink and registers its field id in the field list; `add_edge_attractor`
appends its `Attractor` statement but does NOT register its field id; and
`add_box` writes only the `Box` header line before failing with a
`TypeError` (the source concatenates `float(...)` values onto strings), so
it registers nothing. -/
theorem refinement_field_registration (g : MeshGenerator) (field ifield : Nat)
    (vin xmin xmax ymin ymax zmin zmax lcMin lcMax distMin distMax : ℚ) :
    ((g.add_threshold field ifield lcMin lcMax distMin distMax).sink =
        g.sink ++ ["Field[" ++ toString field ++ "]         = Threshold;\n",
          "Field[" ++ toString field ++ "].IField  = " ++ toString ifield ++ ";\n",
          "Field[" ++ toString field ++ "].LcMin   = " ++ toString lcMin ++ ";\n",
          "Field[" ++ toString field ++ "].LcMax   = " ++ toString lcMax ++ ";\n",
          "Field[" ++ toString field ++ "].DistMin = " ++ toString distMin ++ ";\n",
          "Field[" ++ toString field ++ "].DistMax = " ++ toString distMax ++ ";\n\n"] ∧
      (g.add_threshold field ifield lcMin lcMax distMin distMax).fieldList =
        g.fieldList ++ [field]) ∧
    ((g.add_edge_attractor field).sink =
        g.sink ++ ["Field[" ++ toString field ++ "]              = Attractor;\n",
          "Field[" ++ toString field ++ "].NodesList    = " ++ g.loop ++ ";\n",
          "Field[" ++ toString field ++ "].NNodesByEdge = 100;\n\n"] ∧
      (g.add_edge_attractor field).fieldList = g.fieldList) ∧
    ((g.add_box field vin xmin xmax ymin ymax zmin zmax).1.sink =
        g.sink ++ ["Field[" ++ toString field ++ "]      =  Box;\n"] ∧
      (g.add_box field vin xmin xmax ymin ymax zmin zmax).1.fieldList = g.fieldList ∧
      (g.add_box field vin xmin xmax ymin ymax zmin zmax).2 = some PyErr.typeError) := by
  refine ⟨⟨?_, ?_⟩, ⟨?_, ?_⟩, ?_, ?_, ?_⟩ <;>
    simp [MeshGenerator.add_threshold, MeshGenerator.add_edge_attractor,
      MeshGenerator.add_box, MeshGenerator.write, MeshGenerator.writeSeq,
      MeshGenerator.writeVal, pyConcat, pyAdd]

theorem refinement_field_registration_cex :
    (MeshGenerator.add_edge_attractor gW 2).fieldList = [] ∧
    (MeshGenerator.add_box gW 1 10000 260000 620000 (-1080000) (-710100) 0 0).2 =
      some PyErr.typeError ∧
    (MeshGenerator.add_box gW 1 10000 260000 620000 (-1080000) (-710100) 0 0).1.fieldList =
      [] :=
  ⟨rfl, rfl, rfl⟩

/-- C9: evaluating `MeshGenerator.finish` at the failing input (a generator
with no registered refinement fields, `field = 3`) shows the code writing a
`Background Field = 3;` statement that references a field id that was never
defined — not leaving the uniform spacing `lc` — and leaving `closed = false`
because `f.close` lacks the call parentheses; the second conjunct shows the
registered-fields case writing the `Min` field over the field list in
registration order, with the file again left open. -/
theorem finish_background_and_close_eval :
    MeshGenerator.finish gW 3 =
      { sink := ["Background Field = 3;\n\n"], closed := false, fieldList := [],
        loop := "\x7b0,1\x7d" } ∧
    MeshGenerator.finish gW9 5 =
      { sink := ["Field[5]            = Min;\n",
                 "Field[5].FieldsList = \x7b2, 4\x7d;\n",
                 "Background Field    = 5;\n\n"],
        closed := false, fieldList := [2, 4], loop := "" } := by
  constructor <;> rfl

/-- C10: `DataInput.get_projection` with `dg = True` (and the DG space
present) always projects the nearest-neighbor expression onto the DG space,
for every value of `near`, `kx` and `ky` — the spline path is unreachable. -/
theorem get_projection_dg_nearest (s : DataInputProj) (fn : String)
    (near bool_data : Bool) (kx ky : Nat) (hdg : s.has_dg = true) :
    s.get_projection fn true near bool_data kx ky =
      Except.ok (FEField.proj (InterpExpr.nearestE (s.get_nearest_expression fn bool_data))
        FESpace.dg) := by
  simp [DataInputProj.get_projection, hdg]

theorem get_projection_dg_nearest_witness :
    sP.has_dg = true ∧
      sP.get_projection ("h") true true false 0 0 =
        Except.ok (FEField.proj (InterpExpr.nearestE (sP.get_nearest_expression ("h") false))
          FESpace.dg) :=
  ⟨rfl, get_projection_dg_nearest sP ("h") true false 0 0 rfl⟩

/-- C5 (amended): the nearest-neighbor expression stores a reference to the
field's live array, so an in-place `set_data_val` edit made AFTER the
expression was built changes what its subsequent evaluations return (they
sample the mutated array); the spline expression instead closes over the
spline fitted at construction time, so its evaluations do not depend on the
heap at evaluation time at all. -/
theorem interpolant_capture_semantics (s : DataInputRef) (h h1 : Heap) (fn : String)
    (e : nearestRef) (old_val new_val : ℚ)
    (hc : s.chg_proj = false)
    (hb : s.get_nearest_expression h fn false = some (h, e))
    (hm : s.set_data_val h fn old_val new_val = some h1)
    (ha : e.addr < h.length) :
    (∀ x0 x1 : ℚ, e.evalAt h1 x0 x1 =
      nearestSample (mutGrid old_val new_val (heapGet h e.addr)) e.xs e.ys x0 x1) ∧
    (∀ (kx ky : Nat) (h' : Heap) (sp : splineExpression),
      s.get_spline_expression h fn kx ky false = some (h', sp) →
      ∀ (h2 h3 : Heap) (x0 x1 : ℚ), sp.evalAt h2 x0 x1 = sp.evalAt h3 x0 x1) := by
  constructor
  · intro x0 x1
    rcases hlk : s.addrs.lookup fn with _ | a
    · simp [DataInputRef.get_nearest_expression, hlk] at hb
    · simp only [DataInputRef.get_nearest_expression, hlk, if_neg, Bool.false_eq_true,
        ite_false, Option.some.injEq, Prod.mk.injEq, true_and] at hb
      simp only [DataInputRef.set_data_val, hlk, Option.some.injEq] at hm
      subst hb
      subst hm
      have hga : heapGet (h.set a (mutGrid old_val new_val (heapGet h a))) a =
          mutGrid old_val new_val (heapGet h a) :=
        getD_set_self _ _ _ _ ha
      simp [nearestRef.evalAt, nearestSample, hc, hga]
  · intro kx ky h' sp _ h2 h3 x0 x1
    rfl

theorem interpolant_capture_semantics_witness :
    nearestRef.evalAt eB h1W 0 0 =
      nearestSample (mutGrid 5 7 (heapGet h0 eB.addr)) eB.xs eB.ys 0 0 ∧
    nearestRef.evalAt eB h1W 0 0 = 7 :=
  ⟨(interpolant_capture_semantics s5 h0 h1W ("b") eB 5 7 rfl rfl (by rfl) (by decide)).1 0 0,
    by decide⟩

theorem spline_interpolant_snapshot_cex :
    DataInputRef.get_spline_expression s5 h0 ("b") 3 3 false = some (h0, spB) ∧
    DataInputRef.set_data_val s5 h0 ("b") 5 7 = some h1W ∧
    heapGet h1W 0 ≠ heapGet h0 0 ∧
    splineExpression.evalAt spB h1W 0 0 = splineExpression.evalAt spB h0 0 0 ∧
    splineExpression.evalAt spB h1W 0 0 = 5 :=
  ⟨rfl, by decide, by decide, rfl, by decide⟩
